import Mathlib

/-!
ColoringScreen: stroke capture and palette loading.

A shallow embedding of `src/screens/ColoringScreen.js`.

The component keeps four pieces of React state (`currentColor`, `paths`,
`colorPalette`, `loading`).  Every entry of `paths` holds a reference to a
Skia path object that `handleMove` mutates in place, so the embedding keeps
an explicit store of path objects next to the React state: `handleTouch`
allocates a fresh object, `handleMove` updates the object the last entry
points to.  What the canvas shows is recovered by `drawing`.

Pointer coordinates are only ever copied (never computed with), so they are
carried as integers.
-/

namespace ColoringScreen

/-! ## Skia paths -/

/-- The pair `(locationX, locationY)` read from a pointer event. -/
structure Point where
  x : Int
  y : Int
  deriving DecidableEq, Repr

/-- One recorded drawing command of a Skia path. -/
inductive PathVerb where
  | moveTo (p : Point)
  | lineTo (p : Point)
  deriving DecidableEq, Repr

/-- The point a drawing command carries. -/
def PathVerb.point : PathVerb → Point
  | .moveTo p => p
  | .lineTo p => p

/-- A Skia path object: its drawing commands in the order they were issued. -/
abbrev SkPath := List PathVerb

namespace SkPath

/-- The result of `Skia.Path.Make()`: a path without commands. -/
def make : SkPath := []

/-- The effect of `path.moveTo(x, y)`. -/
def moveTo (path : SkPath) (p : Point) : SkPath := path ++ [PathVerb.moveTo p]

/-- The effect of `path.lineTo(x, y)`.  Skia starts a contour at the origin
when a line is requested on a path that has none. -/
def lineTo (path : SkPath) (p : Point) : SkPath :=
  match path with
  | [] => [PathVerb.moveTo ⟨0, 0⟩, PathVerb.lineTo p]
  | _ :: _ => path ++ [PathVerb.lineTo p]

/-- The points of a path, in the order they were added. -/
def points (path : SkPath) : List Point := path.map PathVerb.point

end SkPath

/-! ## Component state -/

/-- An element of the `paths` array: `{ path, color }`, where `path` is a
reference to a Skia path object in the store. -/
structure PathEntry where
  path : Nat
  color : String
  deriving DecidableEq, Repr

/-- The state of a mounted `ColoringScreen`: the four `useState` cells and the
store of Skia path objects the entries of `paths` refer to. -/
structure Screen where
  currentColor : String
  paths : List PathEntry
  colorPalette : List String
  loading : Bool
  store : List SkPath
  deriving DecidableEq, Repr

/-- The state on first render (the `useState` initial values); no path object
has been created yet. -/
def initialState : Screen :=
  { currentColor := "#FF0000", paths := [], colorPalette := [], loading := true,
    store := [] }

/-- The JavaScript exceptions the component can raise or receive. -/
inductive JsError where
  | typeError (message : String)
  | syntaxError (message : String)
  | networkError (message : String)
  deriving DecidableEq, Repr

/-- The `nativeEvent` of a touch event. -/
structure NativeEvent where
  locationX : Int
  locationY : Int
  deriving DecidableEq, Repr

/-- A touch event as delivered to `onTouchStart` and `onTouchMove`. -/
structure TouchEvent where
  nativeEvent : NativeEvent
  deriving DecidableEq, Repr

/-- The point a touch event reports. -/
def TouchEvent.location (event : TouchEvent) : Point :=
  ⟨event.nativeEvent.locationX, event.nativeEvent.locationY⟩

/-- Dereferencing a path reference; a reference that names no object yields
the empty path. -/
def deref (store : List SkPath) (ref : Nat) : SkPath := (store[ref]?).getD []

/-- Array indexing `xs[i]` as JavaScript does it: an index outside
`0 .. length - 1` yields `undefined` (here `none`). -/
def jsIndex {α : Type} (xs : List α) (i : Int) : Option α :=
  if 0 ≤ i then xs[i.toNat]? else none

/-- The index `updatedPaths.length - 1` that `handleMove` reads. -/
def lastIndex {α : Type} (xs : List α) : Int := (xs.length : Int) - 1

/-! ## Handlers -/

/-- The handler `handleTouch`: makes a new path object, moves it to the touch
location, and appends `{ path, color: currentColor }` to `paths`. -/
def handleTouch (event : TouchEvent) (s : Screen) : Screen :=
  let path := SkPath.moveTo SkPath.make event.location
  { s with
    store := s.store ++ [path]
    paths := s.paths ++ [{ path := s.store.length, color := s.currentColor }] }

/-- The handler `handleMove`: copies the array, reads its element at
`length - 1` and calls `lineTo` on the path object of that element.  Reading
`.path` of `undefined` raises a `TypeError`. -/
def handleMove (event : TouchEvent) (s : Screen) : Except JsError Screen :=
  let updatedPaths := s.paths
  match jsIndex updatedPaths (lastIndex updatedPaths) with
  | none =>
    .error (.typeError "Cannot read property path of undefined")
  | some entry =>
    .ok { s with
          store := s.store.set entry.path
            (SkPath.lineTo (deref s.store entry.path) event.location)
          paths := updatedPaths }

/-- The handler `clearCanvas`: `setPaths([])`. -/
def clearCanvas (s : Screen) : Screen := { s with paths := [] }

/-- The state setter `setCurrentColor`, called by a palette button. -/
def setCurrentColor (color : String) (s : Screen) : Screen :=
  { s with currentColor := color }

/-! ## What the canvas shows -/

/-- A stroke as drawn: its points in order and its color. -/
structure Stroke where
  points : List Point
  color : String
  deriving DecidableEq, Repr

/-- The stroke an entry of `paths` is drawn as: the current points of its path
object, in the color of the entry. -/
def strokeOf (store : List SkPath) (entry : PathEntry) : Stroke :=
  { points := SkPath.points (deref store entry.path), color := entry.color }

/-- The strokes the canvas draws: one per entry of `paths`, in array order,
each with the current contents of its path object. -/
def drawing (s : Screen) : List Stroke :=
  s.paths.map (strokeOf s.store)

/-- The stroke that the next `handleMove` would extend: the last one. -/
def activeStroke (s : Screen) : Option Stroke := (drawing s).getLast?

/-! ## JSON values and the JavaScript operations applied to them -/

/-- A value produced by `response.json()`.  A number is represented by the
text JavaScript prints for it; an object by its own properties (keys are
distinct after parsing). -/
inductive JVal where
  | null
  | bool (b : Bool)
  | num (shown : String)
  | str (s : String)
  | arr (items : List JVal)
  | obj (fields : List (String × JVal))

mutual
/-- String conversion `String(v)` of a JSON value, as done by a template
literal.  A plain object prints as `[object Object]` unless it has an own
`toString` property: that property is not callable, `valueOf` does not yield
a primitive, and the conversion raises a `TypeError`.  An array prints its
items joined by commas. -/
def JVal.toJsString : JVal → Except JsError String
  | .null => .ok "null"
  | .bool b => .ok (if b then "true" else "false")
  | .num shown => .ok shown
  | .str s => .ok s
  | .arr items => JVal.joinItems items
  | .obj fields =>
    if fields.any (fun kv => kv.1 == "toString") then
      .error (.typeError "Cannot convert object to primitive value")
    else .ok "[object Object]"
/-- The method `Array.prototype.join` with the default separator: `null` items
print as the empty string. -/
def JVal.joinItems : List JVal → Except JsError String
  | [] => .ok ""
  | [.null] => .ok ""
  | [x] => JVal.toJsString x
  | .null :: rest =>
    match JVal.joinItems rest with
    | .ok tail => .ok ("," ++ tail)
    | .error e => .error e
  | x :: rest =>
    match JVal.toJsString x with
    | .error e => .error e
    | .ok head =>
      match JVal.joinItems rest with
      | .ok tail => .ok (head ++ "," ++ tail)
      | .error e => .error e
end

/-- The property read `color.hex`: `none` stands for `undefined`.  Reading a
property of `null` raises a `TypeError`; a primitive or an array has no `hex`
property. -/
def getHex : JVal → Except JsError (Option JVal)
  | .null => .error (.typeError "Cannot read property hex of null")
  | .obj fields => .ok (fields.lookup "hex")
  | _ => .ok none

/-- The template literal that puts `#` before the interpolated value of
`color.hex`; `undefined` prints as the word `undefined`. -/
def hashTemplate : Option JVal → Except JsError String
  | none => .ok "#undefined"
  | some v =>
    match JVal.toJsString v with
    | .ok text => .ok ("#" ++ text)
    | .error e => .error e

/-- The callback passed to `data.map`: reads `color.hex` and formats it. -/
def formatColor (color : JVal) : Except JsError String :=
  match getHex color with
  | .ok hex => hashTemplate hex
  | .error e => .error e

/-- Applies the callback to the items from left to right; the first exception
ends the traversal. -/
def mapItems (f : JVal → Except JsError String) : List JVal → Except JsError (List String)
  | [] => .ok []
  | item :: rest =>
    match f item with
    | .error e => .error e
    | .ok head =>
      match mapItems f rest with
      | .ok tail => .ok (head :: tail)
      | .error e => .error e

/-- The call `data.map(callback)`: only an array has a callable `map`; on any
other JSON value the call raises a `TypeError`. -/
def jsMap (data : JVal) (f : JVal → Except JsError String) : Except JsError (List String) :=
  match data with
  | .arr items => mapItems f items
  | _ => .error (.typeError "data.map is not a function")

/-! ## Loading the palette -/

/-- How the palette request ends: `fetch` rejects, or it yields a response
(with any status code) whose `json()` either fails or yields a value. -/
inductive FetchOutcome where
  | rejected (error : JsError)
  | response (status : Nat) (json : Except JsError JVal)

/-- The palette set in the `catch` block. -/
def fallbackPalette : List String :=
  ["#FF0000", "#FFA500", "#FFFF00", "#00FF00", "#00FFFF",
   "#0000FF", "#800080", "#000000", "#FFC0CB", "#D2691E",
   "#FFD700", "#8A2BE2", "#FF4500", "#00CED1", "#48D1CC",
   "#7FFF00", "#BA55D3", "#DC143C", "#FF8C00", "#00FA9A"]

/-- The `try` block of `fetchColorPalette` up to the list it passes to
`setColorPalette`.  The status of the response is not inspected. -/
def fetchedColors : FetchOutcome → Except JsError (List String)
  | .rejected error => .error error
  | .response _ (.error error) => .error error
  | .response _ (.ok data) => jsMap data formatColor

/-- The function `fetchColorPalette`, run to completion for a request that
ended with the given outcome: `try` sets the mapped colors, `catch` sets the
fallback palette, `finally` clears `loading`.  The result is an error only if
one escapes the `try` statement. -/
def fetchColorPalette (outcome : FetchOutcome) (s : Screen) : Except JsError Screen :=
  let afterTry : Except JsError Screen :=
    match fetchedColors outcome with
    | .ok colors => .ok { s with colorPalette := colors }
    | .error _ => .ok { s with colorPalette := fallbackPalette }
  match afterTry with
  | .ok s1 => .ok { s1 with loading := false }
  | .error e => .error e

/-- Whether a character is a hexadecimal digit. -/
def isHexDigit (c : Char) : Bool :=
  c.isDigit || (c.toNat ≥ 65 && c.toNat ≤ 70) || (c.toNat ≥ 97 && c.toNat ≤ 102)

/-- Whether a string is `#` followed by exactly six hexadecimal digits. -/
def isHexColor (color : String) : Bool :=
  match color.toList with
  | c :: digits => c == '#' && digits.length == 6 && digits.all isHexDigit
  | [] => false

/-! ## Rendering -/

/-- The callbacks the component attaches to elements. -/
inductive Handler where
  | handleTouch
  | handleMove
  | clearCanvas
  | setCurrentColor (color : String)
  deriving DecidableEq, Repr

/-- The elements the component returns. -/
inductive Element where
  | view (style : String) (children : List Element)
  | activityIndicator (size : String) (color : String)
  | text (content : String)
  | touchableOpacity (onPress : Handler) (backgroundColor : Option String)
      (selected : Bool) (children : List Element)
  | materialIcon (name : String) (size : Nat) (color : String)
  | image (source : Nat)
  | canvas (onTouchStart : Handler) (onTouchMove : Handler) (children : List Element)
  | path (path : SkPath) (strokeWidth : Nat) (color : String)

/-- The route parameters `title` and `image`. -/
structure RouteParams where
  title : String
  image : Nat

/-- The element tree `ColoringScreen` returns for a state: the loading view
while `loading` holds, the full screen otherwise. -/
def render (params : RouteParams) (s : Screen) : Element :=
  if s.loading then
    .view "loadingContainer"
      [.activityIndicator "large" "#0000FF", .text "Loading color palette..."]
  else
    .view "container"
      [ .view "header"
          [ .text params.title,
            .touchableOpacity .clearCanvas none false [.materialIcon "delete" 24 "#333"] ],
        .view "imageContainer"
          [ .image params.image,
            .canvas .handleTouch .handleMove
              (s.paths.map fun p => .path (deref s.store p.path) 5 p.color) ],
        .view "paletteContainer"
          [ .text "Pick a Color:",
            .view "palette"
              (s.colorPalette.map fun color =>
                .touchableOpacity (.setCurrentColor color) (some color)
                  (s.currentColor == color) []) ] ]

mutual
/-- The touch handlers `(onTouchStart, onTouchMove)` of every canvas in an
element tree. -/
def Element.canvasHandlers : Element → List (Handler × Handler)
  | .view _ children => Element.canvasHandlersList children
  | .touchableOpacity _ _ _ children => Element.canvasHandlersList children
  | .canvas onTouchStart onTouchMove children =>
    (onTouchStart, onTouchMove) :: Element.canvasHandlersList children
  | _ => []
/-- The touch handlers of every canvas in a list of element trees. -/
def Element.canvasHandlersList : List Element → List (Handler × Handler)
  | [] => []
  | e :: rest => Element.canvasHandlers e ++ Element.canvasHandlersList rest
end

/-! ## Sequences of events -/

/-- An event the mounted component reacts to. -/
inductive Action where
  | touch (event : TouchEvent)
  | move (event : TouchEvent)
  | clear
  | pick (color : String)
  | paletteLoaded (outcome : FetchOutcome)

/-- Whether an action is the clear button. -/
def Action.isClear : Action → Bool
  | .clear => true
  | _ => false

/-- Whether an action is a press on a palette button. -/
def Action.isPick : Action → Bool
  | .pick _ => true
  | _ => false

/-- The reaction of the component to one event. -/
def step (a : Action) (s : Screen) : Except JsError Screen :=
  match a with
  | .touch event => .ok (handleTouch event s)
  | .move event => handleMove event s
  | .clear => .ok (clearCanvas s)
  | .pick color => .ok (setCurrentColor color s)
  | .paletteLoaded outcome => fetchColorPalette outcome s

/-- The reaction to a sequence of events, stopping at the first exception. -/
def run : List Action → Screen → Except JsError Screen
  | [], s => .ok s
  | a :: rest, s =>
    match step a s with
    | .ok s1 => run rest s1
    | .error e => .error e

/-- The value of `currentColor` at each `handleTouch` of a run, in order. -/
def touchColors : List Action → Screen → List String
  | [], _ => []
  | a :: rest, s =>
    match step a s with
    | .ok s1 =>
      match a with
      | .touch _ => s.currentColor :: touchColors rest s1
      | _ => touchColors rest s1
    | .error _ => []

/-- The entries of `paths` own their path objects: no two entries share one,
and every entry refers to an object that holds at least one command. -/
def PathsOwned (s : Screen) : Prop :=
  (s.paths.map PathEntry.path).Nodup ∧ ∀ entry ∈ s.paths, deref s.store entry.path ≠ []

/-- Whether an element of the payload carries a `hex` field that holds six
hexadecimal digits, as the endpoint documents. -/
def carriesHex : JVal → Bool
  | .obj fields =>
    match fields.lookup "hex" with
    | some (.str code) => code.length == 6 && code.toList.all isHexDigit
    | _ => false
  | _ => false

/-- Whether a payload is an array whose every element carries such a `hex`
field. -/
def matchesSchema : JVal → Bool
  | .arr items => items.all carriesHex
  | _ => false

mutual
/-- Whether a JSON value can be converted to a string: an object can unless it
has an own `toString` property, an array can when all its items can, and every
primitive can. -/
def JVal.printable : JVal → Bool
  | .arr items => JVal.allPrintable items
  | .obj fields => !fields.any (fun kv => kv.1 == "toString")
  | _ => true
/-- Whether every value of a list can be converted to a string. -/
def JVal.allPrintable : List JVal → Bool
  | [] => true
  | x :: rest => JVal.printable x && JVal.allPrintable rest
end

/-- Whether an element of the payload has no `hex` property to read: an object
without that key, or a primitive or an array.  (`null` has no properties at
all.) -/
def lacksHex : JVal → Bool
  | .null => false
  | .obj fields => (fields.lookup "hex").isNone
  | _ => true

/-- Whether an element of the payload can be turned into a palette entry: it
is not `null`, and its `hex` value, if it has one, can be converted to a
string. -/
def usableItem : JVal → Bool
  | .null => false
  | .obj fields =>
    match fields.lookup "hex" with
    | none => true
    | some hex => hex.printable
  | _ => true

/-- Whether a payload is an array all of whose elements can be turned into
palette entries. -/
def mapsCleanly : JVal → Bool
  | .arr items => items.all usableItem
  | _ => false

/-- A screen on which the palette request has failed and one stroke has been
begun at `(10, 10)` with the default color. -/
def oneStrokeScreen : Screen :=
  handleTouch ⟨⟨10, 10⟩⟩
    { initialState with colorPalette := fallbackPalette, loading := false }

/-! ## Lemmas on the store of path objects -/

theorem jsIndex_lastIndex {α : Type} (xs : List α) :
    jsIndex xs (lastIndex xs) = xs.getLast? := by
  cases xs with
  | nil => simp [jsIndex, lastIndex]
  | cons x rest =>
    have h : (0 : Int) ≤ lastIndex (x :: rest) := by
      simp only [lastIndex, List.length_cons]; omega
    have h2 : (lastIndex (x :: rest)).toNat = (x :: rest).length - 1 := by
      simp only [lastIndex, List.length_cons]; omega
    rw [jsIndex, if_pos h, h2, List.getLast?_eq_getElem?]

theorem deref_lt_of_ne_nil {store : List SkPath} {r : Nat} (h : deref store r ≠ []) :
    r < store.length := by
  by_contra hlt
  apply h
  simp only [deref]
  rw [List.getElem?_eq_none (Nat.le_of_not_lt hlt)]
  rfl

theorem deref_set_self {store : List SkPath} {r : Nat} (v : SkPath) (h : r < store.length) :
    deref (store.set r v) r = v := by
  simp [deref, List.getElem?_set_self, h]

theorem deref_set_ne {store : List SkPath} {r r2 : Nat} (v : SkPath) (h : r ≠ r2) :
    deref (store.set r v) r2 = deref store r2 := by
  simp [deref, List.getElem?_set_ne h]

theorem deref_append_lt {store : List SkPath} {r : Nat} (v : SkPath) (h : r < store.length) :
    deref (store ++ [v]) r = deref store r := by
  simp [deref, List.getElem?_append_left h]

theorem deref_append_length (store : List SkPath) (v : SkPath) :
    deref (store ++ [v]) store.length = v := by
  simp [deref]

theorem lineTo_of_ne_nil {path : SkPath} (p : Point) (h : path ≠ []) :
    SkPath.lineTo path p = path ++ [PathVerb.lineTo p] := by
  cases path with
  | nil => exact absurd rfl h
  | cons v rest => rfl

theorem handleMove_of_getLast {s : Screen} {entry : PathEntry} (event : TouchEvent)
    (h : s.paths.getLast? = some entry) :
    handleMove event s = .ok { s with
      store := s.store.set entry.path
        (SkPath.lineTo (deref s.store entry.path) event.location) } := by
  simp only [handleMove, jsIndex_lastIndex, h]

theorem set_deref_self {store : List SkPath} {r : Nat} (h : r < store.length) :
    store.set r (deref store r) = store := by
  apply List.ext_getElem?
  intro i
  by_cases hi : r = i
  · subst hi
    simp [deref, List.getElem?_set_self, h, List.getElem?_eq_getElem h]
  · simp [List.getElem?_set_ne hi]

/-- A run of move events extends the path object of the last entry by one line
command per event and touches nothing else. -/
theorem run_moves (moves : List TouchEvent) :
    ∀ {t : Screen} {entry : PathEntry}, t.paths.getLast? = some entry →
      deref t.store entry.path ≠ [] →
      run (moves.map Action.move) t = .ok { t with
        store := t.store.set entry.path
          (deref t.store entry.path ++ moves.map fun e => PathVerb.lineTo e.location) } := by
  induction moves with
  | nil =>
    intro t entry _ hne
    simp only [List.map_nil, run, List.append_nil]
    rw [set_deref_self (deref_lt_of_ne_nil hne)]
  | cons event rest ih =>
    intro t entry hlast hne
    have hlt := deref_lt_of_ne_nil hne
    simp only [List.map_cons, run, step, handleMove_of_getLast event hlast]
    rw [lineTo_of_ne_nil _ hne]
    have hd : deref (t.store.set entry.path
        (deref t.store entry.path ++ [PathVerb.lineTo event.location])) entry.path =
        deref t.store entry.path ++ [PathVerb.lineTo event.location] :=
      deref_set_self _ hlt
    have hstep := @ih
      ⟨t.currentColor, t.paths, t.colorPalette, t.loading,
        t.store.set entry.path (deref t.store entry.path ++ [PathVerb.lineTo event.location])⟩
      entry hlast (by rw [hd]; simp)
    rw [hstep]
    simp only [hd, List.set_set, List.append_assoc, List.singleton_append]

theorem points_moveTo_lines (p : Point) (moves : List TouchEvent) :
    SkPath.points (SkPath.moveTo SkPath.make p ++
      moves.map fun e => PathVerb.lineTo e.location) =
      p :: moves.map TouchEvent.location := by
  simp [SkPath.points, SkPath.moveTo, SkPath.make, PathVerb.point, Function.comp_def]

/-! ## Stroke capture -/

/-- C1: after `handleTouch` at a start point with active color `c`, followed
by `handleMove` calls at the points of `moves` in that order, the run succeeds
and the last stroke of the drawing has exactly the start point followed by the
move points, in call order, and color `c`; one stroke was added. -/
theorem touch_then_moves_last_stroke (s : Screen) (start : TouchEvent)
    (moves : List TouchEvent) :
    ∃ s1, run (Action.touch start :: moves.map Action.move) s = .ok s1 ∧
      (drawing s1).getLast? =
        some { points := start.location :: moves.map TouchEvent.location,
               color := s.currentColor } ∧
      (drawing s1).length = (drawing s).length + 1 := by
  have hlast : (handleTouch start s).paths.getLast? =
      some { path := s.store.length, color := s.currentColor } := by
    simp [handleTouch]
  have hd : deref (handleTouch start s).store s.store.length =
      SkPath.moveTo SkPath.make start.location := by
    simp only [handleTouch]
    exact deref_append_length _ _
  have hne : deref (handleTouch start s).store
      (PathEntry.mk s.store.length s.currentColor).path ≠ [] := by
    rw [hd]; simp [SkPath.moveTo]
  have hlt := deref_lt_of_ne_nil hne
  have hrun := run_moves moves hlast hne
  refine ⟨_, (by simp only [run, step]; exact hrun), ?_, ?_⟩
  · simp only [drawing, List.getLast?_map, hlast, Option.map_some', strokeOf]
    rw [deref_set_self _ hlt, hd, points_moveTo_lines]
  · simp [drawing, handleTouch]

/-- C2: from every state, `clearCanvas` yields a drawing with zero strokes and
no active stroke, and clearing twice gives the same state as clearing once. -/
theorem clearCanvas_empty_idempotent (s : Screen) :
    drawing (clearCanvas s) = [] ∧ activeStroke (clearCanvas s) = none ∧
      clearCanvas (clearCanvas s) = clearCanvas s := by
  refine ⟨rfl, rfl, rfl⟩

/-! ## Palette loading -/

theorem mapItems_cons_ne_nil (f : JVal → Except JsError String) (item : JVal)
    (rest : List JVal) (out : List String) (h : mapItems f (item :: rest) = .ok out) :
    out ≠ [] := by
  simp only [mapItems] at h
  split at h
  · cases h
  · split at h
    · cases h; simp
    · cases h

theorem fetchColorPalette_of_error {outcome : FetchOutcome} {e : JsError} (s : Screen)
    (h : fetchedColors outcome = .error e) :
    fetchColorPalette outcome s =
      .ok { s with colorPalette := fallbackPalette, loading := false } := by
  simp only [fetchColorPalette, h]

theorem fetchColorPalette_of_ok {outcome : FetchOutcome} {colors : List String} (s : Screen)
    (h : fetchedColors outcome = .ok colors) :
    fetchColorPalette outcome s =
      .ok { s with colorPalette := colors, loading := false } := by
  simp only [fetchColorPalette, h]

/-- C3 fails as stated: a response whose body parses to the empty array leaves
the palette empty once loading completes. -/
theorem empty_array_gives_empty_palette :
    ∃ s1, fetchColorPalette (.response 200 (.ok (.arr []))) initialState = .ok s1 ∧
      s1.loading = false ∧ s1.colorPalette = [] :=
  ⟨_, rfl, rfl, rfl⟩

/-- C3, amended: for every outcome of the palette request other than a
successfully parsed empty array, `fetchColorPalette` completes with `loading`
cleared and a non-empty palette. -/
theorem palette_nonempty_unless_empty_array (outcome : FetchOutcome) (s : Screen)
    (h : ∀ status, outcome ≠ .response status (.ok (.arr []))) :
    ∃ s1, fetchColorPalette outcome s = .ok s1 ∧ s1.loading = false ∧
      s1.colorPalette ≠ [] := by
  have hfb : fallbackPalette ≠ [] := by decide
  cases hc : fetchedColors outcome with
  | error e => exact ⟨_, fetchColorPalette_of_error s hc, rfl, hfb⟩
  | ok colors =>
    refine ⟨_, fetchColorPalette_of_ok s hc, rfl, ?_⟩
    cases outcome with
    | rejected error => cases hc
    | response status json =>
      cases json with
      | error error => cases hc
      | ok data =>
        cases data with
        | arr items =>
          cases items with
          | nil => exact absurd rfl (h status)
          | cons item rest => exact mapItems_cons_ne_nil _ _ _ _ hc
        | null => cases hc
        | bool b => cases hc
        | num shown => cases hc
        | str text => cases hc
        | obj fields => cases hc

theorem palette_nonempty_unless_empty_array_witness :
    (∀ status, FetchOutcome.rejected (.networkError "Network request failed") ≠
        .response status (.ok (.arr []))) ∧
      ∃ s1, fetchColorPalette (.rejected (.networkError "Network request failed"))
          initialState = .ok s1 ∧ s1.loading = false ∧ s1.colorPalette ≠ [] :=
  ⟨fun _ h => FetchOutcome.noConfusion h,
   palette_nonempty_unless_empty_array _ _ (fun _ h => FetchOutcome.noConfusion h)⟩

theorem mapItems_error_of_null_mem (items : List JVal) (h : JVal.null ∈ items) :
    ∃ e, mapItems formatColor items = .error e := by
  induction items with
  | nil => cases h
  | cons item rest ih =>
    cases hf : formatColor item with
    | error e => exact ⟨e, by simp only [mapItems, hf]⟩
    | ok head =>
      have hrest : JVal.null ∈ rest := by
        rcases List.mem_cons.mp h with heq | hmem
        · subst heq; cases hf
        · exact hmem
      obtain ⟨e, he⟩ := ih hrest
      exact ⟨e, by simp only [mapItems, hf, he]⟩

/-- C4 fails as stated: an array of one object that lacks `hex` does not match
the schema, yet the palette becomes `["#undefined"]`, not the fallback list. -/
theorem missing_hex_is_not_fallback :
    matchesSchema (.arr [.obj []]) = false ∧
      ∃ s1, fetchColorPalette (.response 200 (.ok (.arr [.obj []]))) initialState = .ok s1 ∧
        s1.colorPalette = ["#undefined"] ∧ s1.colorPalette ≠ fallbackPalette :=
  ⟨rfl, { initialState with colorPalette := ["#undefined"], loading := false },
    rfl, rfl, by decide⟩

mutual
theorem toJsString_toBool : ∀ v : JVal, (JVal.toJsString v).toBool = v.printable
  | .null => rfl
  | .bool _ => rfl
  | .num _ => rfl
  | .str _ => rfl
  | .arr items => by
    simp only [JVal.toJsString, JVal.printable]
    exact joinItems_toBool items
  | .obj fields => by
    simp only [JVal.toJsString, JVal.printable]
    cases fields.any (fun kv => kv.1 == "toString") <;> rfl
theorem joinItems_toBool : ∀ items : List JVal,
    (JVal.joinItems items).toBool = JVal.allPrintable items
  | [] => rfl
  | [x] => by
    have hx := toJsString_toBool x
    cases x <;> simp_all [JVal.joinItems, JVal.allPrintable, JVal.printable, Except.toBool]
  | x :: y :: rest => by
    have hx := toJsString_toBool x
    have hr := joinItems_toBool (y :: rest)
    rw [JVal.allPrintable, ← hx, ← hr]
    cases x with
    | null => simp only [JVal.joinItems]; cases JVal.joinItems (y :: rest) <;> rfl
    | bool b =>
      simp only [JVal.joinItems]
      cases JVal.toJsString (.bool b) <;> cases JVal.joinItems (y :: rest) <;> rfl
    | num n =>
      simp only [JVal.joinItems]
      cases JVal.toJsString (.num n) <;> cases JVal.joinItems (y :: rest) <;> rfl
    | str t =>
      simp only [JVal.joinItems]
      cases JVal.toJsString (.str t) <;> cases JVal.joinItems (y :: rest) <;> rfl
    | arr xs =>
      simp only [JVal.joinItems]
      cases JVal.toJsString (.arr xs) <;> cases JVal.joinItems (y :: rest) <;> rfl
    | obj fs =>
      simp only [JVal.joinItems]
      cases JVal.toJsString (.obj fs) <;> cases JVal.joinItems (y :: rest) <;> rfl
end

/-- The callback raises exactly on the elements that are not usable. -/
theorem formatColor_toBool (item : JVal) : (formatColor item).toBool = usableItem item := by
  cases item with
  | obj fields =>
    simp only [formatColor, getHex, usableItem]
    cases fields.lookup "hex" with
    | none => rfl
    | some hex =>
      simp only [hashTemplate]
      rw [← toJsString_toBool hex]
      cases JVal.toJsString hex <;> rfl
  | null => rfl
  | bool b => rfl
  | num shown => rfl
  | str text => rfl
  | arr items => rfl

theorem mapItems_toBool (items : List JVal) :
    (mapItems formatColor items).toBool = items.all usableItem := by
  induction items with
  | nil => rfl
  | cons item rest ih =>
    rw [List.all_cons, ← ih, ← formatColor_toBool item]
    simp only [mapItems]
    cases formatColor item <;> cases mapItems formatColor rest <;> rfl

theorem mapItems_getElem (f : JVal → Except JsError String) :
    ∀ (items : List JVal) (colors : List String), mapItems f items = .ok colors →
      colors.length = items.length ∧
        ∀ (i : Nat) (item : JVal), items[i]? = some item →
          ∃ color, f item = .ok color ∧ colors[i]? = some color := by
  intro items
  induction items with
  | nil =>
    intro colors h
    cases h
    exact ⟨rfl, fun i item hi => by simp at hi⟩
  | cons head rest ih =>
    intro colors h
    simp only [mapItems] at h
    cases hf : f head with
    | error e => simp [hf] at h
    | ok first =>
      cases hr : mapItems f rest with
      | error e => simp [hf, hr] at h
      | ok tail =>
        simp only [hf, hr, Except.ok.injEq] at h
        subst h
        obtain ⟨hlen, hget⟩ := ih tail hr
        refine ⟨by simp [hlen], ?_⟩
        intro i item hi
        cases i with
        | zero =>
          simp only [List.getElem?_cons_zero, Option.some.injEq] at hi
          subst hi
          exact ⟨first, hf, by simp⟩
        | succ k =>
          simp only [List.getElem?_cons_succ] at hi ⊢
          exact hget k item hi

theorem formatColor_of_lacksHex (item : JVal) (h : lacksHex item = true) :
    formatColor item = .ok "#undefined" := by
  cases item with
  | obj fields =>
    simp only [lacksHex, Option.isNone_iff_eq_none] at h
    simp only [formatColor, getHex, h, hashTemplate]
  | null => simp [lacksHex] at h
  | bool b => rfl
  | num shown => rfl
  | str text => rfl
  | arr items => rfl

theorem usableItem_of_carriesHex (item : JVal) (h : carriesHex item = true) :
    usableItem item = true := by
  cases item with
  | obj fields =>
    simp only [carriesHex] at h
    simp only [usableItem]
    cases hl : fields.lookup "hex" with
    | none => rfl
    | some hex =>
      rw [hl] at h
      cases hex <;> simp_all [JVal.printable]
  | null => simp [carriesHex] at h
  | bool b => rfl
  | num shown => rfl
  | str text => rfl
  | arr items => rfl

theorem mapsCleanly_of_matchesSchema (data : JVal) (h : matchesSchema data = true) :
    mapsCleanly data = true := by
  cases data with
  | arr items =>
    simp only [matchesSchema, List.all_eq_true] at h
    simp only [mapsCleanly, List.all_eq_true]
    exact fun item hmem => usableItem_of_carriesHex item (h item hmem)
  | null => simp [matchesSchema] at h
  | bool b => simp [matchesSchema] at h
  | num shown => simp [matchesSchema] at h
  | str text => simp [matchesSchema] at h
  | obj fields => simp [matchesSchema] at h

theorem fetchedColors_toBool (status : Nat) (data : JVal) :
    (fetchedColors (.response status (.ok data))).toBool = mapsCleanly data := by
  cases data with
  | arr items => exact mapItems_toBool items
  | null => rfl
  | bool b => rfl
  | num shown => rfl
  | str text => rfl
  | obj fields => rfl

/-- C4, amended: for every parsed payload, whatever the status code, that is
not a JSON array, or is an array with an element that is `null` or whose `hex`
value cannot be converted to a string, `fetchColorPalette` sets the palette to
the built-in fallback list and ends in the same state as after a transport
failure.  For every other payload, which includes every payload that matches
the schema, the `try` block completes: the palette gets one entry per
element, in order, and the entry of an element without a `hex` property is
`#undefined`. -/
theorem fallback_exactly_when_map_raises (status : Nat) (data : JVal) (error : JsError)
    (s : Screen) :
    (matchesSchema data = true → mapsCleanly data = true) ∧
      (mapsCleanly data = false →
        fetchColorPalette (.response status (.ok data)) s =
            .ok { s with colorPalette := fallbackPalette, loading := false } ∧
          fetchColorPalette (.response status (.ok data)) s =
            fetchColorPalette (.rejected error) s) ∧
      (mapsCleanly data = true →
        ∃ items colors, data = .arr items ∧
          fetchColorPalette (.response status (.ok data)) s =
            .ok { s with colorPalette := colors, loading := false } ∧
          colors.length = items.length ∧
          ∀ (i : Nat) (item : JVal), items[i]? = some item → lacksHex item = true →
            colors[i]? = some "#undefined") := by
  refine ⟨mapsCleanly_of_matchesSchema data, ?_, ?_⟩
  · intro hraise
    have hb := fetchedColors_toBool status data
    rw [hraise] at hb
    cases hc : fetchedColors (.response status (.ok data)) with
    | ok colors => rw [hc] at hb; cases hb
    | error e =>
      have hrej : fetchColorPalette (.rejected error) s =
          .ok { s with colorPalette := fallbackPalette, loading := false } := rfl
      rw [hrej]
      exact ⟨fetchColorPalette_of_error s hc, fetchColorPalette_of_error s hc⟩
  · intro hclean
    have hb := fetchedColors_toBool status data
    rw [hclean] at hb
    cases data with
    | arr items =>
      cases hc : fetchedColors (.response status (.ok (.arr items))) with
      | error e => rw [hc] at hb; cases hb
      | ok colors =>
        obtain ⟨hlen, hget⟩ := mapItems_getElem formatColor items colors hc
        refine ⟨items, colors, rfl, fetchColorPalette_of_ok s hc, hlen, ?_⟩
        intro i item hi hlack
        obtain ⟨color, hf, hcol⟩ := hget i item hi
        rw [formatColor_of_lacksHex item hlack] at hf
        cases hf
        exact hcol
    | null => cases hclean
    | bool b => cases hclean
    | num shown => cases hclean
    | str text => cases hclean
    | obj fields => cases hclean

theorem fallback_exactly_when_map_raises_witness :
    (matchesSchema (.arr [.obj [("hex", .str "00ff00")]]) = true ∧
      mapsCleanly (.arr [.obj [], .obj [("hex", .obj [("toString", .str "x")])]]) = false ∧
      mapsCleanly (.obj [("message", .str "Not Found")]) = false ∧
      mapsCleanly (.arr [.obj [], .num "7"]) = true) ∧
      mapsCleanly (.arr [.obj [("hex", .str "00ff00")]]) = true ∧
      fetchColorPalette
          (.response 200 (.ok (.arr [.obj [], .obj [("hex", .obj [("toString", .str "x")])]])))
          initialState =
        .ok { initialState with colorPalette := fallbackPalette, loading := false } ∧
      fetchColorPalette (.response 404 (.ok (.obj [("message", .str "Not Found")])))
          initialState =
        fetchColorPalette (.rejected (.networkError "Network request failed")) initialState ∧
      ∃ items colors, JVal.arr [.obj [], .num "7"] = .arr items ∧
        fetchColorPalette (.response 200 (.ok (.arr [.obj [], .num "7"]))) initialState =
          .ok { initialState with colorPalette := colors, loading := false } ∧
        colors.length = items.length ∧
        ∀ (i : Nat) (item : JVal), items[i]? = some item → lacksHex item = true →
          colors[i]? = some "#undefined" :=
  ⟨⟨rfl, rfl, rfl, rfl⟩,
   (fallback_exactly_when_map_raises 200 (.arr [.obj [("hex", .str "00ff00")]])
      (.networkError "Network request failed") initialState).1 rfl,
   ((fallback_exactly_when_map_raises 200
      (.arr [.obj [], .obj [("hex", .obj [("toString", .str "x")])]])
      (.networkError "Network request failed") initialState).2.1 rfl).1,
   ((fallback_exactly_when_map_raises 404 (.obj [("message", .str "Not Found")])
      (.networkError "Network request failed") initialState).2.1 rfl).2,
   (fallback_exactly_when_map_raises 200 (.arr [.obj [], .num "7"])
      (.networkError "Network request failed") initialState).2.2 rfl⟩

theorem mapItems_hex_strings (items : List JVal) (hexes : List String)
    (h : List.Forall₂ (fun item hex => ∃ fields, item = JVal.obj fields ∧
      fields.lookup "hex" = some (JVal.str hex)) items hexes) :
    mapItems formatColor items = .ok (hexes.map fun hex => "#" ++ hex) := by
  induction h with
  | nil => rfl
  | cons hhead _ ih =>
    obtain ⟨fields, rfl, hlookup⟩ := hhead
    simp only [mapItems, formatColor, getHex, hlookup, hashTemplate, JVal.toJsString, ih,
      List.map_cons]

/-- C7: when the response body parses to an array of `n` objects whose `hex`
fields hold the strings `h1 .. hn`, `fetchColorPalette` sets the palette to
exactly `["#" ++ h1, .., "#" ++ hn]`: same length, same order, each entry the
`hex` string with a single `#` put before it. -/
theorem palette_from_hex_fields (status : Nat) (items : List JVal) (hexes : List String)
    (s : Screen)
    (h : List.Forall₂ (fun item hex => ∃ fields, item = JVal.obj fields ∧
      fields.lookup "hex" = some (JVal.str hex)) items hexes) :
    fetchColorPalette (.response status (.ok (.arr items))) s =
        .ok { s with colorPalette := hexes.map (fun hex => "#" ++ hex), loading := false } ∧
      (hexes.map fun hex => "#" ++ hex).length = items.length := by
  refine ⟨fetchColorPalette_of_ok s (mapItems_hex_strings items hexes h), ?_⟩
  rw [List.length_map, h.length_eq]

theorem palette_from_hex_fields_witness :
    List.Forall₂ (fun item hex => ∃ fields, item = JVal.obj fields ∧
        fields.lookup "hex" = some (JVal.str hex))
        [JVal.obj [("hex", .str "00ff00")]] ["00ff00"] ∧
      fetchColorPalette (.response 200 (.ok (.arr [.obj [("hex", .str "00ff00")]])))
          initialState =
        .ok { initialState with colorPalette := ["#00ff00"], loading := false } :=
  ⟨List.Forall₂.cons ⟨_, rfl, rfl⟩ List.Forall₂.nil,
   (palette_from_hex_fields 200 [JVal.obj [("hex", .str "00ff00")]] ["00ff00"] initialState
      (List.Forall₂.cons ⟨_, rfl, rfl⟩ List.Forall₂.nil)).1⟩

/-- C8: when the palette request fails by throwing (a rejected `fetch` or a
body that does not parse), `fetchColorPalette` returns normally with `loading`
cleared and the palette set to one fixed list, whatever the error: it has
20 entries, begins with `#FF0000`, and every entry is `#` followed by six
hexadecimal digits. -/
theorem thrown_failure_sets_fallback (error : JsError) (status : Nat) (s : Screen) :
    fetchColorPalette (.rejected error) s =
        .ok { s with colorPalette := fallbackPalette, loading := false } ∧
      fetchColorPalette (.response status (.error error)) s =
        .ok { s with colorPalette := fallbackPalette, loading := false } ∧
      fallbackPalette.length = 20 ∧ fallbackPalette.head? = some "#FF0000" ∧
      fallbackPalette.all isHexColor = true :=
  ⟨rfl, rfl, by decide, by decide, by decide⟩

/-! ## A move without a stroke -/

/-- C5 (evaluation of the code): directly after `clearCanvas`, from any state,
`handleMove` reads index `-1` of the empty `paths` array, outside its bounds,
obtains `undefined`, and raises a `TypeError` from inside the state update. -/
theorem handleMove_after_clear_raises (event : TouchEvent) (s : Screen) :
    drawing (clearCanvas s) = [] ∧
      lastIndex (clearCanvas s).paths = -1 ∧
      ¬ (0 ≤ lastIndex (clearCanvas s).paths ∧
          lastIndex (clearCanvas s).paths < ((clearCanvas s).paths.length : Int)) ∧
      jsIndex (clearCanvas s).paths (lastIndex (clearCanvas s).paths) = none ∧
      handleMove event (clearCanvas s) =
        .error (.typeError "Cannot read property path of undefined") := by
  refine ⟨rfl, rfl, ?_, rfl, rfl⟩
  simp [clearCanvas, lastIndex]

/-! ## Rendering while the palette loads -/

theorem canvasHandlersList_paths (store : List SkPath) (paths : List PathEntry) :
    Element.canvasHandlersList
      (paths.map fun p => Element.path (deref store p.path) 5 p.color) = [] := by
  induction paths with
  | nil => rfl
  | cons p rest ih => simp only [List.map_cons, Element.canvasHandlersList, ih]; rfl

theorem canvasHandlersList_buttons (current : String) (palette : List String) :
    Element.canvasHandlersList
      (palette.map fun color =>
        Element.touchableOpacity (.setCurrentColor color) (some color)
          (current == color) []) = [] := by
  induction palette with
  | nil => rfl
  | cons color rest ih => simp only [List.map_cons, Element.canvasHandlersList, ih]; rfl

theorem canvasHandlers_render (params : RouteParams) (s : Screen) :
    (render params s).canvasHandlers =
      if s.loading then [] else [(Handler.handleTouch, Handler.handleMove)] := by
  cases hl : s.loading with
  | true => simp [render, hl, Element.canvasHandlers, Element.canvasHandlersList]
  | false =>
    simp [render, hl, Element.canvasHandlers, Element.canvasHandlersList,
      canvasHandlersList_paths, canvasHandlersList_buttons]

/-- C6 fails as stated: on first render, while the palette request is in
flight, the component renders no canvas, so no touch handler is attached. -/
theorem no_canvas_while_loading :
    initialState.loading = true ∧
      (render { title := "Butterfly", image := 1 } initialState).canvasHandlers = [] :=
  ⟨rfl, rfl⟩

/-- C6, amended: while `loading` holds the component renders no canvas; in
every state where `loading` is cleared it renders exactly one canvas, with
`handleTouch` on touch start and `handleMove` on touch move.  The completion
of `fetchColorPalette`, by success or by failure, leads to such a state and
keeps the active color, so the first stroke begun after the load of a freshly
mounted screen has the default color `#FF0000`. -/
theorem canvas_rendered_once_loaded (params : RouteParams) (s : Screen)
    (outcome : FetchOutcome) (event : TouchEvent) :
    ((render params s).canvasHandlers =
        if s.loading then [] else [(Handler.handleTouch, Handler.handleMove)]) ∧
      (∃ s1, fetchColorPalette outcome s = .ok s1 ∧ s1.loading = false ∧
        s1.currentColor = s.currentColor ∧
        (render params s1).canvasHandlers = [(Handler.handleTouch, Handler.handleMove)]) ∧
      (∃ s1, fetchColorPalette outcome initialState = .ok s1 ∧
        drawing (handleTouch event s1) =
          [{ points := [event.location], color := "#FF0000" }]) := by
  refine ⟨canvasHandlers_render params s, ?_, ?_⟩
  · cases hc : fetchedColors outcome with
    | error e =>
      exact ⟨_, fetchColorPalette_of_error s hc, rfl, rfl, by rw [canvasHandlers_render]; rfl⟩
    | ok colors =>
      exact ⟨_, fetchColorPalette_of_ok s hc, rfl, rfl, by rw [canvasHandlers_render]; rfl⟩
  · cases hc : fetchedColors outcome with
    | error e => exact ⟨_, fetchColorPalette_of_error _ hc, rfl⟩
    | ok colors => exact ⟨_, fetchColorPalette_of_ok _ hc, rfl⟩

/-! ## Ownership of path objects -/

theorem PathsOwned.lt_length {s : Screen} (h : PathsOwned s) {entry : PathEntry}
    (hmem : entry ∈ s.paths) : entry.path < s.store.length :=
  deref_lt_of_ne_nil (h.2 entry hmem)

theorem pathsOwned_initialState : PathsOwned initialState := by
  simp [PathsOwned, initialState]

theorem pathsOwned_handleTouch {s : Screen} (event : TouchEvent) (h : PathsOwned s) :
    PathsOwned (handleTouch event s) := by
  constructor
  · simp only [handleTouch, List.map_append, List.map_cons, List.map_nil]
    rw [List.nodup_append]
    refine ⟨h.1, List.nodup_singleton _, ?_⟩
    intro r hr hr2
    rw [List.mem_singleton] at hr2
    obtain ⟨entry, hmem, rfl⟩ := List.mem_map.mp hr
    have := h.lt_length hmem
    omega
  · intro entry hmem
    simp only [handleTouch, List.mem_append, List.mem_singleton] at hmem
    rcases hmem with hmem | rfl
    · simp only [handleTouch]
      rw [deref_append_lt _ (h.lt_length hmem)]
      exact h.2 entry hmem
    · simp only [handleTouch]
      rw [deref_append_length]
      simp [SkPath.moveTo]

theorem pathsOwned_set {s : Screen} (r : Nat) {v : SkPath} (hv : v ≠ []) (h : PathsOwned s) :
    PathsOwned { s with store := s.store.set r v } := by
  refine ⟨h.1, ?_⟩
  intro entry hmem
  by_cases hr : r = entry.path
  · subst hr
    show deref (s.store.set entry.path v) entry.path ≠ []
    rw [deref_set_self _ (h.lt_length hmem)]
    exact hv
  · show deref (s.store.set r v) entry.path ≠ []
    rw [deref_set_ne _ hr]
    exact h.2 entry hmem

theorem handleMove_ok_iff (event : TouchEvent) (s : Screen) :
    s.paths ≠ [] → ∃ entry, s.paths.getLast? = some entry ∧
      handleMove event s = .ok { s with
        store := s.store.set entry.path
          (SkPath.lineTo (deref s.store entry.path) event.location) } := by
  intro hne
  cases hl : s.paths.getLast? with
  | none => exact absurd (List.getLast?_eq_none_iff.mp hl) hne
  | some entry => exact ⟨entry, rfl, handleMove_of_getLast event hl⟩

theorem lineTo_ne_nil (path : SkPath) (p : Point) : SkPath.lineTo path p ≠ [] := by
  cases path <;> simp [SkPath.lineTo]

theorem pathsOwned_handleMove {s s1 : Screen} (event : TouchEvent) (h : PathsOwned s)
    (hrun : handleMove event s = .ok s1) : PathsOwned s1 := by
  by_cases hne : s.paths = []
  · simp [handleMove, hne, jsIndex, lastIndex] at hrun
  · obtain ⟨entry, _, heq⟩ := handleMove_ok_iff event s hne
    rw [heq] at hrun
    cases hrun
    exact pathsOwned_set _ (lineTo_ne_nil _ _) h

theorem fetchColorPalette_ok (outcome : FetchOutcome) (s : Screen) :
    ∃ colors, fetchColorPalette outcome s =
      .ok { s with colorPalette := colors, loading := false } := by
  cases hc : fetchedColors outcome with
  | error e => exact ⟨_, fetchColorPalette_of_error s hc⟩
  | ok colors => exact ⟨_, fetchColorPalette_of_ok s hc⟩

theorem pathsOwned_step {s s1 : Screen} (a : Action) (h : PathsOwned s)
    (hstep : step a s = .ok s1) : PathsOwned s1 := by
  cases a with
  | touch event => cases hstep; exact pathsOwned_handleTouch event h
  | move event => exact pathsOwned_handleMove event h hstep
  | clear => cases hstep; simp [PathsOwned, clearCanvas]
  | pick color => cases hstep; exact h
  | paletteLoaded outcome =>
    obtain ⟨colors, hc⟩ := fetchColorPalette_ok outcome s
    simp only [step, hc] at hstep
    cases hstep
    exact h

/-- Every state the screen reaches from its first render, by any sequence of
events, has entries that own their path objects. -/
theorem pathsOwned_run (acts : List Action) :
    ∀ {s s1 : Screen}, PathsOwned s → run acts s = .ok s1 → PathsOwned s1 := by
  induction acts with
  | nil => intro s s1 h hrun; cases hrun; exact h
  | cons a rest ih =>
    intro s s1 h hrun
    simp only [run] at hrun
    cases hs : step a s with
    | error e => simp [hs] at hrun
    | ok s2 =>
      simp only [hs] at hrun
      exact ih (pathsOwned_step a h hs) hrun

/-! ## Colors of existing strokes -/

theorem drawing_colors (s : Screen) :
    (drawing s).map Stroke.color = s.paths.map PathEntry.color := by
  simp [drawing, strokeOf, Function.comp_def]

theorem run_colors (acts : List Action) :
    ∀ s : Screen, s.paths ≠ [] → (∀ a ∈ acts, a.isClear = false) →
      ∃ s1, run acts s = .ok s1 ∧
        s1.paths.map PathEntry.color = s.paths.map PathEntry.color ++ touchColors acts s := by
  induction acts with
  | nil => intro s _ _; exact ⟨s, rfl, by simp [touchColors]⟩
  | cons a rest ih =>
    intro s hne hacts
    have hrest : ∀ b ∈ rest, b.isClear = false :=
      fun b hb => hacts b (List.mem_cons_of_mem _ hb)
    cases a with
    | touch event =>
      obtain ⟨s1, hrun, hcol⟩ := ih (handleTouch event s) (by simp [handleTouch]) hrest
      refine ⟨s1, by simp only [run, step, hrun], ?_⟩
      rw [hcol]
      simp [touchColors, step, handleTouch]
    | move event =>
      obtain ⟨entry, _, heq⟩ := handleMove_ok_iff event s hne
      obtain ⟨s1, hrun, hcol⟩ := ih
        ⟨s.currentColor, s.paths, s.colorPalette, s.loading,
          s.store.set entry.path (SkPath.lineTo (deref s.store entry.path) event.location)⟩
        hne hrest
      refine ⟨s1, by simp only [run, step, heq, hrun], ?_⟩
      rw [hcol]
      simp [touchColors, step, heq]
    | clear =>
      have := hacts Action.clear (List.mem_cons_self _ _)
      simp [Action.isClear] at this
    | pick color =>
      obtain ⟨s1, hrun, hcol⟩ := ih (setCurrentColor color s) (by exact hne) hrest
      refine ⟨s1, by simp only [run, step, hrun], ?_⟩
      rw [hcol]
      simp [touchColors, step, setCurrentColor]
    | paletteLoaded outcome =>
      obtain ⟨colors, hc⟩ := fetchColorPalette_ok outcome s
      obtain ⟨s1, hrun, hcol⟩ := ih
        ⟨s.currentColor, s.paths, colors, false, s.store⟩ hne hrest
      refine ⟨s1, by simp only [run, step, hc, hrun], ?_⟩
      rw [hcol]
      simp [touchColors, step, hc]

/-- C9: for every drawing with at least one stroke and every color `c`,
`setCurrentColor c` leaves the drawing unchanged, and every later sequence of
events without a clear (color picks, moves, touches, the palette load) runs to
completion and leaves the colors of the existing strokes as they were: the
colors of the final drawing are the previous colors followed by, for each
`handleTouch` of the run, the active color at the moment of that call. -/
theorem stroke_colors_fixed (s : Screen) (c : String) (acts : List Action)
    (hs : drawing s ≠ []) (hacts : ∀ a ∈ acts, a.isClear = false) :
    drawing (setCurrentColor c s) = drawing s ∧
      ∃ s1, run acts (setCurrentColor c s) = .ok s1 ∧
        (drawing s1).map Stroke.color =
          (drawing s).map Stroke.color ++ touchColors acts (setCurrentColor c s) := by
  refine ⟨rfl, ?_⟩
  have hne : (setCurrentColor c s).paths ≠ [] := by
    intro h
    exact hs (by simp [drawing, setCurrentColor] at h ⊢; exact h)
  obtain ⟨s1, hrun, hcol⟩ := run_colors acts (setCurrentColor c s) hne hacts
  refine ⟨s1, hrun, ?_⟩
  rw [drawing_colors, drawing_colors, hcol]
  rfl

theorem stroke_colors_fixed_witness :
    (drawing oneStrokeScreen ≠ [] ∧
      ∀ a ∈ [Action.move ⟨⟨20, 20⟩⟩, Action.touch ⟨⟨5, 5⟩⟩,
          Action.pick "#00FF00", Action.move ⟨⟨6, 6⟩⟩, Action.touch ⟨⟨7, 7⟩⟩],
        a.isClear = false) ∧
      (drawing (setCurrentColor "#0000FF" oneStrokeScreen) = drawing oneStrokeScreen ∧
        ∃ s1, run [Action.move ⟨⟨20, 20⟩⟩, Action.touch ⟨⟨5, 5⟩⟩,
            Action.pick "#00FF00", Action.move ⟨⟨6, 6⟩⟩, Action.touch ⟨⟨7, 7⟩⟩]
            (setCurrentColor "#0000FF" oneStrokeScreen) = .ok s1 ∧
          (drawing s1).map Stroke.color = ["#FF0000"] ++ ["#0000FF", "#00FF00"]) :=
  ⟨⟨by decide, by simp [Action.isClear]⟩,
   stroke_colors_fixed oneStrokeScreen "#0000FF"
     [Action.move ⟨⟨20, 20⟩⟩, Action.touch ⟨⟨5, 5⟩⟩,
       Action.pick "#00FF00", Action.move ⟨⟨6, 6⟩⟩, Action.touch ⟨⟨7, 7⟩⟩]
     (by decide) (by simp [Action.isClear])⟩

/-! ## Strokes before the last one -/

theorem map_strokeOf_set_last (store : List SkPath) (pre : List PathEntry)
    (entry : PathEntry) (v : SkPath)
    (hnodup : ((pre ++ [entry]).map PathEntry.path).Nodup) (hlt : entry.path < store.length) :
    (pre ++ [entry]).map (strokeOf (store.set entry.path v)) =
      pre.map (strokeOf store) ++ [{ points := SkPath.points v, color := entry.color }] := by
  rw [List.map_append] at hnodup ⊢
  obtain ⟨_, _, hdisj⟩ := List.nodup_append.mp hnodup
  have hpre : pre.map (strokeOf (store.set entry.path v)) = pre.map (strokeOf store) := by
    apply List.map_congr_left
    intro e he
    have hne : entry.path ≠ e.path := by
      intro heq
      exact hdisj (List.mem_map.mpr ⟨e, he, rfl⟩) (by simp [heq])
    simp only [strokeOf, deref_set_ne _ hne]
  rw [hpre]
  simp only [List.map_cons, List.map_nil, strokeOf, deref_set_self _ hlt]

theorem drawing_handleTouch {s : Screen} (event : TouchEvent) (h : PathsOwned s) :
    drawing (handleTouch event s) =
      drawing s ++ [{ points := [event.location], color := s.currentColor }] := by
  simp only [drawing, handleTouch, List.map_append, List.map_cons, List.map_nil]
  congr 1
  · apply List.map_congr_left
    intro e he
    simp only [strokeOf, deref_append_lt _ (h.lt_length he)]
  · simp only [strokeOf, deref_append_length]
    rfl

theorem drawing_handleMove {s : Screen} (event : TouchEvent) (h : PathsOwned s)
    (hne : drawing s ≠ []) :
    ∃ s1 last, handleMove event s = .ok s1 ∧ (drawing s).getLast? = some last ∧
      drawing s1 = (drawing s).dropLast ++
        [{ points := last.points ++ [event.location], color := last.color }] := by
  have hpaths : s.paths ≠ [] := by
    intro hnil
    exact hne (by simp [drawing, hnil])
  obtain ⟨entry, hlast, heq⟩ := handleMove_ok_iff event s hpaths
  obtain ⟨pre, hpre⟩ := List.getLast?_eq_some_iff.mp hlast
  have hmem : entry ∈ s.paths := by rw [hpre]; simp
  have hlt := h.lt_length hmem
  have hnodup := h.1
  rw [hpre] at hnodup
  refine ⟨_, strokeOf s.store entry, heq, ?_, ?_⟩
  · simp [drawing, hpre]
  · simp only [drawing, hpre]
    rw [map_strokeOf_set_last s.store pre entry _ hnodup hlt, lineTo_of_ne_nil _ (h.2 entry hmem)]
    simp [strokeOf, SkPath.points, PathVerb.point]

theorem run_append (first second : List Action) :
    ∀ {s s1 : Screen}, run first s = .ok s1 → run (first ++ second) s = run second s1 := by
  induction first with
  | nil => intro s s1 h; cases h; rfl
  | cons a rest ih =>
    intro s s1 h
    simp only [run, List.cons_append] at h ⊢
    cases hs : step a s with
    | error e => simp [hs] at h
    | ok s2 =>
      simp only [hs] at h ⊢
      exact ih h

theorem run_touch_moves {s : Screen} (start : TouchEvent) (moves : List TouchEvent)
    (h : PathsOwned s) :
    ∃ s1, run (Action.touch start :: moves.map Action.move) s = .ok s1 ∧
      drawing s1 = drawing s ++
        [{ points := start.location :: moves.map TouchEvent.location,
           color := s.currentColor }] ∧
      PathsOwned s1 := by
  have hlast : (handleTouch start s).paths.getLast? =
      some { path := s.store.length, color := s.currentColor } := by
    simp [handleTouch]
  have hd : deref (handleTouch start s).store s.store.length =
      SkPath.moveTo SkPath.make start.location := by
    simp only [handleTouch]
    exact deref_append_length _ _
  have hne : deref (handleTouch start s).store
      (PathEntry.mk s.store.length s.currentColor).path ≠ [] := by
    rw [hd]; simp [SkPath.moveTo]
  have hlt := deref_lt_of_ne_nil hne
  have hrun := run_moves moves hlast hne
  have hown := pathsOwned_handleTouch start h
  have hrun2 := (show run (Action.touch start :: moves.map Action.move) s =
    run (moves.map Action.move) (handleTouch start s) from rfl).trans hrun
  refine ⟨_, hrun2, ?_, pathsOwned_run _ h hrun2⟩
  have hnodup := hown.1
  have hpaths : (handleTouch start s).paths =
      s.paths ++ [{ path := s.store.length, color := s.currentColor }] := rfl
  rw [hpaths] at hnodup
  simp only [drawing, hpaths]
  rw [map_strokeOf_set_last _ _ _ _ hnodup hlt, hd, points_moveTo_lines]
  congr 1
  apply List.map_congr_left
  intro e he
  simp only [strokeOf, handleTouch, deref_append_lt _ (h.lt_length he)]

theorem pathsOwned_oneStrokeScreen : PathsOwned oneStrokeScreen :=
  pathsOwned_handleTouch _ (by simp [PathsOwned, initialState])

/-- C10: in every state whose entries own their path objects (every state the
screen reaches), `handleTouch` appends exactly one stroke at the end and
leaves the earlier strokes and their order as they were; a `handleMove` on a
non-empty drawing succeeds and only adds its point to the last stroke, all
other strokes and the colors being unchanged; and two strokes begun with
colors `c1` then `c2`, each followed by moves, end the drawing in that order,
each holding its own start point and its own moves only. -/
theorem strokes_before_last_unchanged (s : Screen) (h : PathsOwned s) (event : TouchEvent)
    (c1 c2 : String) (e1 e2 : TouchEvent) (ms1 ms2 : List TouchEvent) :
    drawing (handleTouch event s) =
        drawing s ++ [{ points := [event.location], color := s.currentColor }] ∧
      (drawing s ≠ [] →
        ∃ s1 last, handleMove event s = .ok s1 ∧ (drawing s).getLast? = some last ∧
          drawing s1 = (drawing s).dropLast ++
            [{ points := last.points ++ [event.location], color := last.color }]) ∧
      ∃ s2, run ((Action.pick c1 :: Action.touch e1 :: ms1.map Action.move) ++
            (Action.pick c2 :: Action.touch e2 :: ms2.map Action.move)) s = .ok s2 ∧
        drawing s2 = drawing s ++
          [{ points := e1.location :: ms1.map TouchEvent.location, color := c1 },
           { points := e2.location :: ms2.map TouchEvent.location, color := c2 }] := by
  refine ⟨drawing_handleTouch event h, drawing_handleMove event h, ?_⟩
  have h1 : PathsOwned (setCurrentColor c1 s) := h
  obtain ⟨s1, hrun1, hdraw1, hown1⟩ := run_touch_moves e1 ms1 h1
  have h2 : PathsOwned (setCurrentColor c2 s1) := hown1
  obtain ⟨s2, hrun2, hdraw2, _⟩ := run_touch_moves e2 ms2 h2
  have hfirst : run (Action.pick c1 :: Action.touch e1 :: ms1.map Action.move) s = .ok s1 :=
    hrun1
  refine ⟨s2, ?_, ?_⟩
  · rw [run_append _ _ hfirst]
    exact hrun2
  · rw [hdraw2]
    have hd : drawing (setCurrentColor c2 s1) = drawing s1 := rfl
    have hd0 : drawing (setCurrentColor c1 s) = drawing s := rfl
    rw [hd, hdraw1, hd0]
    simp [setCurrentColor]

theorem strokes_before_last_unchanged_witness :
    (PathsOwned oneStrokeScreen ∧ drawing oneStrokeScreen ≠ []) ∧
      drawing (handleTouch ⟨⟨3, 4⟩⟩ oneStrokeScreen) =
        drawing oneStrokeScreen ++ [{ points := [⟨3, 4⟩], color := "#FF0000" }] ∧
      (∃ s1 last, handleMove ⟨⟨3, 4⟩⟩ oneStrokeScreen = .ok s1 ∧
        (drawing oneStrokeScreen).getLast? = some last ∧
        drawing s1 = (drawing oneStrokeScreen).dropLast ++
          [{ points := last.points ++ [⟨3, 4⟩], color := last.color }]) ∧
      ∃ s2, run ((Action.pick "#00FF00" :: Action.touch ⟨⟨1, 1⟩⟩ ::
            [(⟨⟨2, 2⟩⟩ : TouchEvent)].map Action.move) ++
            (Action.pick "#0000FF" :: Action.touch ⟨⟨7, 7⟩⟩ ::
              [(⟨⟨8, 8⟩⟩ : TouchEvent), ⟨⟨9, 9⟩⟩].map Action.move)) oneStrokeScreen = .ok s2 ∧
        drawing s2 = drawing oneStrokeScreen ++
          [{ points := [⟨1, 1⟩, ⟨2, 2⟩], color := "#00FF00" },
           { points := [⟨7, 7⟩, ⟨8, 8⟩, ⟨9, 9⟩], color := "#0000FF" }] :=
  have hw := strokes_before_last_unchanged oneStrokeScreen pathsOwned_oneStrokeScreen
    ⟨⟨3, 4⟩⟩ "#00FF00" "#0000FF" ⟨⟨1, 1⟩⟩ ⟨⟨7, 7⟩⟩ [⟨⟨2, 2⟩⟩] [⟨⟨8, 8⟩⟩, ⟨⟨9, 9⟩⟩]
  ⟨⟨pathsOwned_oneStrokeScreen, by decide⟩, hw.1, hw.2.1 (by decide), hw.2.2⟩

/-! ## The active color -/

theorem getLast_drawing_handleTouch (event : TouchEvent) (s : Screen) :
    (drawing (handleTouch event s)).getLast? =
      some { points := [event.location], color := s.currentColor } := by
  simp only [drawing, handleTouch, List.map_append, List.map_cons, List.map_nil,
    List.getLast?_concat, strokeOf, deref_append_length]
  rfl

theorem step_currentColor {s s1 : Screen} (a : Action) (ha : a.isPick = false)
    (hstep : step a s = .ok s1) : s1.currentColor = s.currentColor := by
  cases a with
  | touch event => cases hstep; rfl
  | move event =>
    by_cases hne : s.paths = []
    · simp [step, handleMove, hne, jsIndex, lastIndex] at hstep
    · obtain ⟨entry, _, heq⟩ := handleMove_ok_iff event s hne
      simp only [step, heq] at hstep
      cases hstep
      rfl
  | clear => cases hstep; rfl
  | pick color => simp [Action.isPick] at ha
  | paletteLoaded outcome =>
    obtain ⟨colors, hc⟩ := fetchColorPalette_ok outcome s
    simp only [step, hc] at hstep
    cases hstep
    rfl

theorem run_currentColor (acts : List Action) :
    ∀ {s s1 : Screen}, (∀ a ∈ acts, a.isPick = false) → run acts s = .ok s1 →
      s1.currentColor = s.currentColor := by
  induction acts with
  | nil => intro s s1 _ hrun; cases hrun; rfl
  | cons a rest ih =>
    intro s s1 hacts hrun
    simp only [run] at hrun
    cases hs : step a s with
    | error e => simp [hs] at hrun
    | ok s2 =>
      simp only [hs] at hrun
      rw [ih (fun b hb => hacts b (List.mem_cons_of_mem _ hb)) hrun]
      exact step_currentColor a (hacts a (List.mem_cons_self _ _)) hs

theorem touchColors_eq_currentColor (acts : List Action) :
    ∀ s : Screen, (∀ a ∈ acts, a.isPick = false) →
      ∀ color ∈ touchColors acts s, color = s.currentColor := by
  induction acts with
  | nil => intro s _ color hmem; simp [touchColors] at hmem
  | cons a rest ih =>
    intro s hacts color hmem
    have hrest : ∀ b ∈ rest, b.isPick = false :=
      fun b hb => hacts b (List.mem_cons_of_mem _ hb)
    cases hs : step a s with
    | error e => simp [touchColors, hs] at hmem
    | ok s2 =>
      have hcur := step_currentColor a (hacts a (List.mem_cons_self _ _)) hs
      cases a with
      | touch event =>
        simp only [touchColors, hs, List.mem_cons] at hmem
        rcases hmem with rfl | hmem
        · rfl
        · rw [← hcur]; exact ih s2 hrest color hmem
      | move event =>
        simp only [touchColors, hs] at hmem
        rw [← hcur]; exact ih s2 hrest color hmem
      | clear =>
        simp only [touchColors, hs] at hmem
        rw [← hcur]; exact ih s2 hrest color hmem
      | pick c =>
        simp only [touchColors, hs] at hmem
        rw [← hcur]; exact ih s2 hrest color hmem
      | paletteLoaded outcome =>
        simp only [touchColors, hs] at hmem
        rw [← hcur]; exact ih s2 hrest color hmem

/-- C11: for every color `c`, member of the palette or not, a stroke begun by
`handleTouch` after `setCurrentColor c`, directly or after further events
other than a palette press, has color `c`; a stroke begun on a freshly mounted
screen before any palette press has the default color `#FF0000`, as has every
stroke of such a run; and the completion of the palette load, by success or
by fallback, leaves the active color as it was. -/
theorem stroke_takes_active_color (s : Screen) (c : String) (event : TouchEvent)
    (outcome : FetchOutcome) (acts : List Action) (hacts : ∀ a ∈ acts, a.isPick = false) :
    (drawing (handleTouch event (setCurrentColor c s))).getLast? =
        some { points := [event.location], color := c } ∧
      (∀ s1, run acts (setCurrentColor c s) = .ok s1 →
        (drawing (handleTouch event s1)).getLast? =
          some { points := [event.location], color := c }) ∧
      (∀ s1, run acts initialState = .ok s1 →
        (drawing (handleTouch event s1)).getLast? =
          some { points := [event.location], color := "#FF0000" }) ∧
      (∀ color ∈ touchColors acts initialState, color = "#FF0000") ∧
      ∃ s1, fetchColorPalette outcome s = .ok s1 ∧ s1.currentColor = s.currentColor := by
  refine ⟨getLast_drawing_handleTouch event _, ?_, ?_, ?_, ?_⟩
  · intro s1 hrun
    rw [getLast_drawing_handleTouch, run_currentColor acts hacts hrun]
    rfl
  · intro s1 hrun
    rw [getLast_drawing_handleTouch, run_currentColor acts hacts hrun]
    rfl
  · exact touchColors_eq_currentColor acts initialState hacts
  · obtain ⟨colors, hc⟩ := fetchColorPalette_ok outcome s
    exact ⟨_, hc, rfl⟩

theorem stroke_takes_active_color_witness :
    ((∀ a ∈ [Action.paletteLoaded (.rejected (.networkError "Network request failed")),
          Action.touch ⟨⟨1, 1⟩⟩, Action.move ⟨⟨2, 2⟩⟩], a.isPick = false) ∧
      "#123456" ∉ oneStrokeScreen.colorPalette) ∧
      (drawing (handleTouch ⟨⟨3, 4⟩⟩ (setCurrentColor "#123456" oneStrokeScreen))).getLast? =
        some { points := [⟨3, 4⟩], color := "#123456" } ∧
      (∃ s1, run [Action.paletteLoaded (.rejected (.networkError "Network request failed")),
            Action.touch ⟨⟨1, 1⟩⟩, Action.move ⟨⟨2, 2⟩⟩]
            (setCurrentColor "#123456" oneStrokeScreen) = .ok s1 ∧
        (drawing (handleTouch ⟨⟨3, 4⟩⟩ s1)).getLast? =
          some { points := [⟨3, 4⟩], color := "#123456" }) ∧
      (∃ s1, run [Action.paletteLoaded (.rejected (.networkError "Network request failed")),
            Action.touch ⟨⟨1, 1⟩⟩, Action.move ⟨⟨2, 2⟩⟩] initialState = .ok s1 ∧
        (drawing (handleTouch ⟨⟨3, 4⟩⟩ s1)).getLast? =
          some { points := [⟨3, 4⟩], color := "#FF0000" }) ∧
      (∀ color ∈ touchColors
          [Action.paletteLoaded (.rejected (.networkError "Network request failed")),
            Action.touch ⟨⟨1, 1⟩⟩, Action.move ⟨⟨2, 2⟩⟩] initialState, color = "#FF0000") ∧
      ∃ s1, fetchColorPalette (.response 200 (.ok (.arr [.obj [("hex", .str "00ff00")]])))
          oneStrokeScreen = .ok s1 ∧ s1.currentColor = oneStrokeScreen.currentColor :=
  have hw := stroke_takes_active_color oneStrokeScreen "#123456" ⟨⟨3, 4⟩⟩
    (.response 200 (.ok (.arr [.obj [("hex", .str "00ff00")]])))
    [Action.paletteLoaded (.rejected (.networkError "Network request failed")),
      Action.touch ⟨⟨1, 1⟩⟩, Action.move ⟨⟨2, 2⟩⟩]
    (by simp [Action.isPick])
  ⟨⟨by simp [Action.isPick], by decide⟩, hw.1, ⟨_, rfl, hw.2.1 _ rfl⟩,
    ⟨_, rfl, hw.2.2.1 _ rfl⟩, hw.2.2.2.1, hw.2.2.2.2⟩

end ColoringScreen
